import Mathlib

/-!
# The circular byte buffer of `buffer.c`

A shallow embedding of the eight routines of `buffer.c` and the properties
stated about them.

Modelling conventions.

* The target is an AVR (`avr/io.h`, `util/atomic.h`): `unsigned short` and
  `unsigned int` are both 16 bits wide, so every sum and difference of the
  index fields is taken modulo `65536` (`add16`, `sub16`).  Offsets added to a
  pointer are not reduced.
* A pointer to bytes (`unsigned char *`) is the map from an offset to the byte
  stored at that offset.  The storage region of a buffer is the part of
  `dataptr` below `size`; an access at an offset of `size` or more is an access
  outside the region, and the map records it at that offset.
* In the program an access outside the storage is undefined behaviour: nothing
  is known of the buffer afterwards, its index fields included.  The routines
  with that made explicit are `bufferAddToEndBuffChecked`, `stepChecked` and
  `runChecked`, which give `none` where a call leaves the storage.
* The `ATOMIC_BLOCK` sections only mask interrupts; a routine is one step.
* Every routine returns the buffer after the call, paired with the value the
  C function returns when it returns one.
-/

namespace Buffer

/-! ## Machine arithmetic -/

/-- Sum of two 16-bit unsigned values, as the AVR computes it. -/
def add16 (a b : Nat) : Nat := (a + b) % 65536

/-- Difference of two 16-bit unsigned values, as the AVR computes it. -/
def sub16 (a b : Nat) : Nat := (a % 65536 + 65536 - b % 65536) % 65536

/-! ## The buffer structure -/

/-- Modelled from the spec: the declaration of `cBuffer` lives in `buffer.h`,
which is absent.  The fields are the four that `buffer.c` reads and writes:
`dataptr` (storage), `size` (capacity), `datalength` (length) and `dataindex`
(head).  The three numeric fields are `unsigned short`, the type of every size,
count and index parameter in `buffer.c`. -/
structure cBuffer where
  dataptr : Nat → Nat
  size : Nat
  datalength : Nat
  dataindex : Nat

/-- The numeric fields are within the range of `unsigned short`. -/
def cBuffer.inRange (b : cBuffer) : Prop :=
  b.size < 65536 ∧ b.datalength < 65536 ∧ b.dataindex < 65536

instance (b : cBuffer) : Decidable b.inRange := by
  unfold cBuffer.inRange; infer_instance

/-- The library function `memcpy (dst + off, src, n)`: the `n` bytes at `src`
are stored at offsets `off .. off + n - 1` of `dst`. -/
def memcpy (dst : Nat → Nat) (off : Nat) (src : Nat → Nat) (n : Nat) : Nat → Nat :=
  fun i => if off ≤ i ∧ i < off + n then src (i - off) else dst i

/-! ## The routines of `buffer.c` -/

/-- The routine `bufferInit` (lines 28-39): binds storage and capacity, resets
index and length. -/
def bufferInit (buffer : cBuffer) (start : Nat → Nat) (size : Nat) : cBuffer :=
  { buffer with dataptr := start, size := size, dataindex := 0, datalength := 0 }

/-- The routine `bufferGetFromFront` (lines 42-63). -/
def bufferGetFromFront (buffer : cBuffer) : cBuffer × Nat :=
  if buffer.datalength ≠ 0 then
    let data := buffer.dataptr buffer.dataindex
    let b1 := { buffer with dataindex := add16 buffer.dataindex 1 }
    let b2 :=
      if b1.dataindex ≥ b1.size then
        { b1 with dataindex := sub16 b1.dataindex b1.size }
      else b1
    ({ b2 with datalength := sub16 b2.datalength 1 }, data)
  else (buffer, 0)

/-- The routine `bufferDumpFromFront` (lines 65-87). -/
def bufferDumpFromFront (buffer : cBuffer) (numbytes : Nat) : cBuffer :=
  if numbytes < buffer.datalength then
    let b1 := { buffer with dataindex := add16 buffer.dataindex numbytes }
    let b2 :=
      if b1.dataindex ≥ b1.size then
        { b1 with dataindex := sub16 b1.dataindex b1.size }
      else b1
    { b2 with datalength := sub16 b2.datalength numbytes }
  else
    { buffer with datalength := 0 }

/-- The routine `bufferGetAtIndex` (lines 89-98).  With `size = 0` the C
remainder is undefined; here `x % 0 = x`. -/
def bufferGetAtIndex (buffer : cBuffer) (index : Nat) : cBuffer × Nat :=
  (buffer, buffer.dataptr (add16 buffer.dataindex index % buffer.size))

/-- The routine `bufferAddToEnd` (lines 100-117).  The status `-1` stored in an
`unsigned char` is `255`. -/
def bufferAddToEnd (buffer : cBuffer) (data : Nat) : cBuffer × Nat :=
  if buffer.datalength < buffer.size then
    let i := add16 buffer.dataindex buffer.datalength % buffer.size
    ({ buffer with
        dataptr := Function.update buffer.dataptr i data,
        datalength := add16 buffer.datalength 1 }, 255)
  else (buffer, 0)

/-- The routine `bufferAddToEndBuff` (lines 119-137).  The destination of the
first copy is `dataptr + dataindex + datalength`, a pointer sum that is not
reduced; `first` and `len - first` are 16-bit values.  This is the arithmetic
of the routine; when a copy leaves the storage the program has no defined
result, see `bufferAddToEndBuffChecked`. -/
def bufferAddToEndBuff (buffer : cBuffer) (data : Nat → Nat) (len : Nat) : cBuffer × Nat :=
  if sub16 buffer.size buffer.datalength ≥ len then
    let mem :=
      if add16 (add16 buffer.dataindex buffer.datalength) len > buffer.size then
        let first := sub16 buffer.size (add16 buffer.dataindex buffer.datalength)
        let m1 := memcpy buffer.dataptr (buffer.dataindex + buffer.datalength) data first
        memcpy m1 0 (fun i => data (first + i)) (sub16 len first)
      else
        memcpy buffer.dataptr (buffer.dataindex + buffer.datalength) data len
    ({ buffer with dataptr := mem, datalength := add16 buffer.datalength len }, 255)
  else (buffer, 0)

/-- The routine `bufferIsNotFull` (lines 139-149). -/
def bufferIsNotFull (buffer : cBuffer) : cBuffer × Nat :=
  (buffer, sub16 buffer.size buffer.datalength)

/-- The routine `bufferFlush` (lines 151-158). -/
def bufferFlush (buffer : cBuffer) : cBuffer :=
  { buffer with datalength := 0 }

/-! ## Notions used by the properties -/

/-- The state invariant: `dataindex < size` and `datalength <= size`. -/
def inv (b : cBuffer) : Prop := b.dataindex < b.size ∧ b.datalength ≤ b.size

instance (b : cBuffer) : Decidable (inv b) := by
  unfold inv; infer_instance

/-- The logical contents: `storage[(head + i) mod capacity]` for
`i = 0 .. length - 1`, the sum being exact. -/
def contents (b : cBuffer) : List Nat :=
  (List.range b.datalength).map fun i => b.dataptr ((b.dataindex + i) % b.size)

/-- A pointer to the first byte of a byte sequence; past its end the memory
reads as `0`. -/
def ptrOf (bytes : List Nat) : Nat → Nat := fun i => bytes.getD i 0

/-- One call of a routine on an initialised buffer. -/
inductive Op where
  | getFromFront
  | dumpFromFront (numbytes : Nat)
  | getAtIndex (index : Nat)
  | addToEnd (data : Nat)
  | addToEndBuff (data : Nat → Nat) (len : Nat)
  | isNotFull
  | flush

/-- The buffer after one call. -/
def step (b : cBuffer) : Op → cBuffer
  | .getFromFront => (bufferGetFromFront b).1
  | .dumpFromFront n => bufferDumpFromFront b n
  | .getAtIndex i => (bufferGetAtIndex b i).1
  | .addToEnd x => (bufferAddToEnd b x).1
  | .addToEndBuff d n => (bufferAddToEndBuff b d n).1
  | .isNotFull => (bufferIsNotFull b).1
  | .flush => bufferFlush b

/-- The buffer after a sequence of calls. -/
def run (b : cBuffer) (ops : List Op) : cBuffer := ops.foldl step b

/-- The buffer after `n` successive calls of `bufferGetFromFront`. -/
def popN : Nat → cBuffer → cBuffer
  | 0, b => b
  | n + 1, b => popN n (bufferGetFromFront b).1

/-- A call of one of the two single-byte routines. -/
inductive QOp where
  | push (x : Nat)
  | pop

/-- The values returned by a sequence of single-byte calls: the status of each
`bufferAddToEnd` and the byte of each `bufferGetFromFront`. -/
def bufferTrace (b : cBuffer) : List QOp → List Nat
  | [] => []
  | .push x :: ops => (bufferAddToEnd b x).2 :: bufferTrace (bufferAddToEnd b x).1 ops
  | .pop :: ops => (bufferGetFromFront b).2 :: bufferTrace (bufferGetFromFront b).1 ops

/-- The same values for an unbounded first-in first-out queue, after the
specification: a push appends and reports success, a pop removes and returns
the oldest byte, and returns `0` on an empty queue. -/
def fifoTrace (q : List Nat) : List QOp → List Nat
  | [] => []
  | .push x :: ops => 255 :: fifoTrace (q ++ [x]) ops
  | .pop :: ops => q.headD 0 :: fifoTrace q.tail ops

/-- The sequence never pushes while `cap` bytes are held, `n` being the number
held at its start. -/
def neverFull (cap : Nat) : Nat → List QOp → Prop
  | _, [] => True
  | n, .push _ :: ops => n < cap ∧ neverFull cap (n + 1) ops
  | n, .pop :: ops => neverFull cap (n - 1) ops

/-! ## Concrete buffers -/

/-- An all-zero buffer structure, before `bufferInit`. -/
def blank : cBuffer := { dataptr := fun _ => 0, size := 0, datalength := 0, dataindex := 0 }

/-- A buffer of capacity 4 whose occupied span wraps: after three appends, two
pops and two appends it holds `3, 4, 5` at offsets `2, 3, 0`. -/
def wrappedBuffer : cBuffer :=
  run (bufferInit blank (fun _ => 0) 4)
    [.addToEnd 1, .addToEnd 2, .addToEnd 3, .getFromFront, .getFromFront,
     .addToEnd 4, .addToEnd 5]

/-- A buffer of capacity 65535 whose head is at offset 65534 and which holds
`n` bytes; offset `i` of its storage holds `i % 256`. -/
def highBuffer (n : Nat) : cBuffer :=
  { dataptr := fun i => i % 256, size := 65535, datalength := n, dataindex := 65534 }


/-! ## Accesses to the storage -/

/-- The offset of the storage that `bufferGetAtIndex` reads: the subscript
`(dataindex + index) % size` of line 95. -/
def bufferGetAtIndexOffset (buffer : cBuffer) (index : Nat) : Nat :=
  add16 buffer.dataindex index % buffer.size

/-- One call of `memcpy`: the offset of its destination from `dataptr`, the
offset of its source from `data`, and its byte count. -/
structure Copy where
  dst : Nat
  src : Nat
  n : Nat
  deriving DecidableEq

/-- The calls of `memcpy` that `bufferAddToEndBuff` makes (lines 124-131), in
order; none when the append is rejected. -/
def bufferAddToEndBuffCopies (buffer : cBuffer) (len : Nat) : List Copy :=
  if sub16 buffer.size buffer.datalength ≥ len then
    if add16 (add16 buffer.dataindex buffer.datalength) len > buffer.size then
      let first := sub16 buffer.size (add16 buffer.dataindex buffer.datalength)
      [{ dst := buffer.dataindex + buffer.datalength, src := 0, n := first },
       { dst := 0, src := first, n := sub16 len first }]
    else
      [{ dst := buffer.dataindex + buffer.datalength, src := 0, n := len }]
  else []

/-- The memory behind `dataptr` after a list of copies from `data`. -/
def applyCopies (data : Nat → Nat) : (Nat → Nat) → List Copy → Nat → Nat
  | mem, [] => mem
  | mem, c :: cs => applyCopies data (memcpy mem c.dst (fun i => data (c.src + i)) c.n) cs

/-- The copy writes only to offsets of the storage, those below `size`. -/
def Copy.inside (c : Copy) (size : Nat) : Prop :=
  ∀ i, c.dst ≤ i → i < c.dst + c.n → i < size

/-- The copy stays within bounds: it writes inside the `size` bytes of the
storage and reads inside the `len` bytes of the source. -/
def Copy.inBounds (c : Copy) (size len : Nat) : Prop :=
  c.dst + c.n ≤ size ∧ c.src + c.n ≤ len

instance (c : Copy) (size len : Nat) : Decidable (c.inBounds size len) := by
  unfold Copy.inBounds; infer_instance

/-- The routine `bufferAddToEndBuff` as the program defines it: the result of
lines 119-137 when every `memcpy` stays within bounds, and `none` when one
leaves the storage or the source, which is undefined behaviour. -/
def bufferAddToEndBuffChecked (buffer : cBuffer) (data : Nat → Nat) (len : Nat) :
    Option (cBuffer × Nat) :=
  if ∀ c ∈ bufferAddToEndBuffCopies buffer len, c.inBounds buffer.size len then
    some (bufferAddToEndBuff buffer data len)
  else none

/-- The buffer after one call, `none` when the call is undefined in the program:
a read of `dataptr[dataindex]` outside the storage (line 51), a remainder by a
`size` of 0 (line 95), or a `memcpy` out of bounds (lines 127-130).  The write
of `bufferAddToEnd` is guarded by `datalength < size` and lands below `size`. -/
def stepChecked (b : cBuffer) : Op → Option cBuffer
  | .getFromFront =>
    if b.datalength ≠ 0 → b.dataindex < b.size then some (bufferGetFromFront b).1 else none
  | .dumpFromFront n => some (bufferDumpFromFront b n)
  | .getAtIndex i => if 0 < b.size then some (bufferGetAtIndex b i).1 else none
  | .addToEnd x => some (bufferAddToEnd b x).1
  | .addToEndBuff d n => (bufferAddToEndBuffChecked b d n).map Prod.fst
  | .isNotFull => some (bufferIsNotFull b).1
  | .flush => some (bufferFlush b)

/-- The buffer after a sequence of calls, `none` once a call is undefined. -/
def runChecked (b : cBuffer) : List Op → Option cBuffer
  | [] => some b
  | op :: ops => (stepChecked b op).bind fun b1 => runChecked b1 ops

/-- The buffer after `bufferAddToEnd` of each byte of a sequence, in order. -/
def pushAll (b : cBuffer) : List Nat → cBuffer
  | [] => b
  | x :: xs => pushAll (bufferAddToEnd b x).1 xs

/-- The bytes returned by `n` successive calls of `bufferGetFromFront`. -/
def popValues : Nat → cBuffer → List Nat
  | 0, _ => []
  | n + 1, b => (bufferGetFromFront b).2 :: popValues n (bufferGetFromFront b).1

/-! ## Preservation of the invariant -/

/-- The routine `bufferInit` establishes the invariant when the capacity is positive. -/
theorem inv_bufferInit (buffer : cBuffer) (start : Nat → Nat) (size : Nat) (h : 0 < size) :
    inv (bufferInit buffer start size) := by
  simp [inv, bufferInit, h]

/-- A pop preserves the invariant. -/
theorem inv_bufferGetFromFront (b : cBuffer) (h : inv b) : inv (bufferGetFromFront b).1 := by
  unfold inv at *
  unfold bufferGetFromFront add16 sub16
  dsimp only
  split_ifs <;> dsimp only <;> omega

/-- A discard preserves the invariant, whatever the count. -/
theorem inv_bufferDumpFromFront (b : cBuffer) (n : Nat) (h : inv b) :
    inv (bufferDumpFromFront b n) := by
  unfold inv at *
  unfold bufferDumpFromFront add16 sub16
  dsimp only
  split_ifs <;> dsimp only <;> omega

/-- A single append preserves the invariant. -/
theorem inv_bufferAddToEnd (b : cBuffer) (x : Nat) (h : inv b) : inv (bufferAddToEnd b x).1 := by
  unfold inv at *
  unfold bufferAddToEnd add16
  dsimp only
  split_ifs <;> dsimp only <;> omega

/-- The index fields that a bulk append computes satisfy the invariant; whether
its copies stay inside the storage is another matter. -/
theorem inv_bufferAddToEndBuff (b : cBuffer) (d : Nat → Nat) (n : Nat) (h : inv b) :
    inv (bufferAddToEndBuff b d n).1 := by
  unfold inv at *
  unfold bufferAddToEndBuff add16 sub16
  dsimp only
  split_ifs <;> dsimp only <;> omega

/-- Every call that is defined preserves the invariant. -/
theorem inv_stepChecked (b b1 : cBuffer) (op : Op) (h : inv b)
    (hstep : stepChecked b op = some b1) : inv b1 := by
  cases op with
  | getFromFront =>
    simp only [stepChecked] at hstep
    split_ifs at hstep
    cases hstep
    exact inv_bufferGetFromFront b h
  | dumpFromFront n =>
    simp only [stepChecked, Option.some.injEq] at hstep
    subst hstep
    exact inv_bufferDumpFromFront b n h
  | getAtIndex i =>
    simp only [stepChecked] at hstep
    split_ifs at hstep
    cases hstep
    exact h
  | addToEnd x =>
    simp only [stepChecked, Option.some.injEq] at hstep
    subst hstep
    exact inv_bufferAddToEnd b x h
  | addToEndBuff d n =>
    simp only [stepChecked, bufferAddToEndBuffChecked] at hstep
    split_ifs at hstep
    · simp only [Option.map_some', Option.some.injEq] at hstep
      subst hstep
      exact inv_bufferAddToEndBuff b d n h
    · cases hstep
  | isNotFull =>
    simp only [stepChecked, Option.some.injEq] at hstep
    subst hstep
    exact h
  | flush =>
    simp only [stepChecked, Option.some.injEq] at hstep
    subst hstep
    exact ⟨h.1, Nat.zero_le _⟩

/-- The invariant holds at the end of every run all of whose calls are defined. -/
theorem inv_runChecked (ops : List Op) (b b1 : cBuffer) (h : inv b)
    (hrun : runChecked b ops = some b1) : inv b1 := by
  induction ops generalizing b with
  | nil =>
    simp only [runChecked, Option.some.injEq] at hrun
    subst hrun
    exact h
  | cons op ops ih =>
    simp only [runChecked] at hrun
    cases hs : stepChecked b op with
    | none => rw [hs] at hrun; cases hrun
    | some b2 =>
      rw [hs] at hrun
      exact ih b2 (inv_stepChecked b b2 op h hs) hrun

/-- On a buffer with the invariant every call other than a bulk append is
defined and gives a buffer with the invariant. -/
theorem stepChecked_defined (b : cBuffer) (op : Op) (h : inv b)
    (hop : ∀ d n, op ≠ .addToEndBuff d n) :
    ∃ b1, stepChecked b op = some b1 ∧ inv b1 := by
  have hi := h.1
  cases op with
  | getFromFront =>
    exact ⟨_, by simp only [stepChecked]; rw [if_pos (fun _ => hi)], inv_bufferGetFromFront b h⟩
  | dumpFromFront n => exact ⟨_, rfl, inv_bufferDumpFromFront b n h⟩
  | getAtIndex i =>
    exact ⟨b, by simp only [stepChecked]; rw [if_pos (by omega)]; rfl, h⟩
  | addToEnd x => exact ⟨_, rfl, inv_bufferAddToEnd b x h⟩
  | addToEndBuff d n => exact absurd rfl (hop d n)
  | isNotFull => exact ⟨_, rfl, h⟩
  | flush => exact ⟨_, rfl, ⟨h.1, Nat.zero_le _⟩⟩

/-! ## Arithmetic of wrapped indices -/

/-- One conditional subtraction computes the remainder below twice the modulus. -/
theorem mod_of_lt_two_mul (a s : Nat) (h : a < 2 * s) :
    a % s = if a < s then a else a - s := by
  split_ifs with h1
  · exact Nat.mod_eq_of_lt h1
  · rw [Nat.mod_eq_sub_mod (by omega)]
    exact Nat.mod_eq_of_lt (by omega)

/-- A wrapped index lies inside the storage. -/
theorem wrapped_index_lt (a s : Nat) (h : 0 < s) : a % s < s := Nat.mod_lt a h

/-- Distinct logical positions of a buffer occupy distinct offsets. -/
theorem wrapped_index_ne (h i n s : Nat) (hh : h < s) (hn : n < s) (hi : i < n) :
    (h + i) % s ≠ (h + n) % s := by
  rw [mod_of_lt_two_mul (h + i) s (by omega), mod_of_lt_two_mul (h + n) s (by omega)]
  split_ifs <;> omega

/-- The contents have `datalength` elements. -/
theorem length_contents (b : cBuffer) : (contents b).length = b.datalength := by
  simp [contents]

/-! ## Contents after a single append and after a pop -/

/-- When `dataindex + datalength` does not exceed 16 bits, a successful single
append writes at `(dataindex + datalength) % size` and appends to the contents. -/
theorem contents_bufferAddToEnd (b : cBuffer) (x : Nat) (h : inv b) (hsize : b.size < 65536)
    (hroom : b.datalength < b.size) (hsum : b.dataindex + b.datalength < 65536) :
    bufferAddToEnd b x =
      ({ b with
          dataptr := Function.update b.dataptr ((b.dataindex + b.datalength) % b.size) x,
          datalength := b.datalength + 1 }, 255) ∧
    contents (bufferAddToEnd b x).1 = contents b ++ [x] := by
  have e : bufferAddToEnd b x =
      ({ b with
          dataptr := Function.update b.dataptr ((b.dataindex + b.datalength) % b.size) x,
          datalength := b.datalength + 1 }, 255) := by
    unfold bufferAddToEnd
    rw [if_pos hroom]
    have e1 : add16 b.dataindex b.datalength = b.dataindex + b.datalength := by
      unfold add16; omega
    have e2 : add16 b.datalength 1 = b.datalength + 1 := by
      unfold add16; omega
    rw [e1, e2]
  refine ⟨e, ?_⟩
  rw [e]
  unfold contents
  dsimp only
  rw [List.range_succ, List.map_append, List.map_singleton, Function.update_same]
  congr 1
  apply List.map_congr_left
  intro i hi
  rw [List.mem_range] at hi
  rw [Function.update_noteq (wrapped_index_ne _ _ _ _ h.1 hroom hi)]

/-- A pop of a non-empty buffer returns `dataptr[dataindex]`, advances the head
modulo `size`, and removes the first element of the contents. -/
theorem contents_bufferGetFromFront (b : cBuffer) (h : inv b) (hsize : b.size < 65536)
    (hne : b.datalength ≠ 0) :
    (bufferGetFromFront b).2 = b.dataptr b.dataindex ∧
    (bufferGetFromFront b).1 =
      { b with dataindex := (b.dataindex + 1) % b.size, datalength := b.datalength - 1 } ∧
    contents b = (bufferGetFromFront b).2 :: contents (bufferGetFromFront b).1 := by
  have hi := h.1
  have hl := h.2
  have e : bufferGetFromFront b =
      ({ b with dataindex := (b.dataindex + 1) % b.size, datalength := b.datalength - 1 },
        b.dataptr b.dataindex) := by
    unfold bufferGetFromFront
    rw [if_pos hne]
    have e1 : add16 b.dataindex 1 = b.dataindex + 1 := by unfold add16; omega
    have e2 : sub16 b.datalength 1 = b.datalength - 1 := by unfold sub16; omega
    dsimp only
    rw [e1, mod_of_lt_two_mul (b.dataindex + 1) b.size (by omega)]
    by_cases hw : b.dataindex + 1 ≥ b.size
    · have e3 : sub16 (b.dataindex + 1) b.size = b.dataindex + 1 - b.size := by
        unfold sub16; omega
      rw [if_pos hw, if_neg (by omega)]
      dsimp only
      rw [e2, e3]
    · rw [if_neg hw, if_pos (by omega)]
      dsimp only
      rw [e2]
  refine ⟨by rw [e], by rw [e], ?_⟩
  rw [e]
  unfold contents
  dsimp only
  obtain ⟨n, hn⟩ : ∃ n, b.datalength = n + 1 := ⟨b.datalength - 1, by omega⟩
  rw [hn, List.range_succ_eq_map, List.map_cons, List.map_map, Nat.add_zero,
    Nat.mod_eq_of_lt hi, Nat.add_sub_cancel]
  congr 1
  apply List.map_congr_left
  intro i _
  have hi1 : b.dataindex + (i + 1) = b.dataindex + 1 + i := by omega
  show b.dataptr ((b.dataindex + (i + 1)) % b.size)
    = b.dataptr (((b.dataindex + 1) % b.size + i) % b.size)
  rw [Nat.mod_add_mod, hi1]


/-! ## Agreement with an unbounded queue -/

/-- For a capacity of at most 32768, every sequence of pushes and pops that
never pushes onto a full buffer returns what the unbounded queue returns. -/
theorem bufferTrace_eq_fifoTrace (ops : List QOp) (b : cBuffer) (h : inv b)
    (hsize : b.size ≤ 32768) (hfull : neverFull b.size b.datalength ops) :
    bufferTrace b ops = fifoTrace (contents b) ops := by
  induction ops generalizing b with
  | nil => rfl
  | cons op ops ih =>
    have hi := h.1
    have hl := h.2
    cases op with
    | push x =>
      obtain ⟨hroom, hrest⟩ := hfull
      obtain ⟨e, hc⟩ := contents_bufferAddToEnd b x h (by omega) hroom (by omega)
      have hinv := inv_bufferAddToEnd b x h
      simp only [bufferTrace, fifoTrace]
      rw [← hc]
      rw [e] at hinv ⊢
      exact congrArg _ (ih _ hinv hsize hrest)
    | pop =>
      simp only [bufferTrace, fifoTrace]
      by_cases hne : b.datalength = 0
      · have e : bufferGetFromFront b = (b, 0) := by
          unfold bufferGetFromFront
          rw [if_neg (by simp [hne])]
        have hc : contents b = [] := by simp [contents, hne]
        have hrest : neverFull b.size b.datalength ops := by
          have := hfull
          simp only [neverFull, hne] at this
          rw [hne]
          exact this
        rw [e]
        dsimp only
        rw [ih b h hsize hrest, hc]
        rfl
      · obtain ⟨_, e, hc⟩ := contents_bufferGetFromFront b h (by omega) hne
        have hinv := inv_bufferGetFromFront b h
        have hrest : neverFull (bufferGetFromFront b).1.size (bufferGetFromFront b).1.datalength
            ops := by
          rw [e]
          exact hfull
        rw [hc, ih _ hinv (by rw [e]; exact hsize) hrest]
        rfl

/-! ## Discard and peek without 16-bit overflow -/

/-- When `dataindex + n` does not exceed 16 bits, a discard of `n < datalength`
bytes advances the head to `(dataindex + n) % size`. -/
theorem bufferDumpFromFront_exact (b : cBuffer) (n : Nat) (h : inv b)
    (hsize : b.size < 65536) (hn : n < b.datalength) (hsum : b.dataindex + n < 65536) :
    bufferDumpFromFront b n =
      { b with dataindex := (b.dataindex + n) % b.size, datalength := b.datalength - n } := by
  have hi := h.1
  have hl := h.2
  have e1 : add16 b.dataindex n = b.dataindex + n := by unfold add16; omega
  have e2 : sub16 b.datalength n = b.datalength - n := by unfold sub16; omega
  unfold bufferDumpFromFront
  rw [if_pos hn]
  dsimp only
  rw [e1, mod_of_lt_two_mul (b.dataindex + n) b.size (by omega)]
  by_cases hw : b.dataindex + n ≥ b.size
  · have e3 : sub16 (b.dataindex + n) b.size = b.dataindex + n - b.size := by
      unfold sub16; omega
    rw [if_pos hw, if_neg (by omega)]
    dsimp only
    rw [e2, e3]
  · rw [if_neg hw, if_pos (by omega)]
    dsimp only
    rw [e2]

/-- The result of `n` pops, `n` at most the length. -/
theorem popN_exact (n : Nat) (b : cBuffer) (h : inv b) (hsize : b.size < 65536)
    (hn : n ≤ b.datalength) :
    popN n b =
      { b with dataindex := (b.dataindex + n) % b.size, datalength := b.datalength - n } := by
  induction n generalizing b with
  | zero =>
    show b = _
    rw [Nat.add_zero, Nat.mod_eq_of_lt h.1, Nat.sub_zero]
  | succ n ih =>
    obtain ⟨_, e, _⟩ := contents_bufferGetFromFront b h hsize (by omega)
    have hinv := inv_bufferGetFromFront b h
    show popN n (bufferGetFromFront b).1 = _
    rw [ih _ hinv (by rw [e]; exact hsize) (by rw [e]; dsimp only; omega), e]
    dsimp only
    have e1 : b.dataindex + 1 + n = b.dataindex + (n + 1) := by omega
    have e2 : b.datalength - 1 - n = b.datalength - (n + 1) := by omega
    rw [Nat.mod_add_mod, e1, e2]

/-- When `dataindex + n` does not exceed 16 bits, a discard of `n < datalength`
bytes equals `n` pops. -/
theorem bufferDumpFromFront_eq_popN (n : Nat) (b : cBuffer) (h : inv b)
    (hsize : b.size < 65536) (hn : n < b.datalength) (hsum : b.dataindex + n < 65536) :
    bufferDumpFromFront b n = popN n b := by
  rw [bufferDumpFromFront_exact b n h hsize hn hsum, popN_exact n b h hsize (by omega)]

/-- When `dataindex + index` does not exceed 16 bits, a peek below the length
returns `dataptr[(dataindex + index) % size]`, the element of the contents at
that position. -/
theorem bufferGetAtIndex_exact (b : cBuffer) (index : Nat)
    (hsum : b.dataindex + index < 65536) (hidx : index < b.datalength) :
    bufferGetAtIndex b index = (b, b.dataptr ((b.dataindex + index) % b.size)) ∧
    (contents b)[index]? = some (bufferGetAtIndex b index).2 := by
  have e : bufferGetAtIndex b index = (b, b.dataptr ((b.dataindex + index) % b.size)) := by
    unfold bufferGetAtIndex add16
    rw [Nat.mod_eq_of_lt hsum]
  refine ⟨e, ?_⟩
  rw [e]
  simp [contents, List.getElem?_map, List.getElem?_range hidx]

/-! ## Bulk append when the free span starts inside the storage -/

/-- When the free span starts inside the storage (`dataindex + datalength ≤ size`)
and no sum exceeds 16 bits, an accepted bulk append writes `data` at the
offsets `dataindex + datalength + i`, wrapped once, and nowhere else. -/
theorem bufferAddToEndBuff_exact (b : cBuffer) (data : Nat → Nat) (len : Nat) (h : inv b)
    (hsize : b.size < 65536) (hfit : len ≤ b.size - b.datalength)
    (hspan : b.dataindex + b.datalength ≤ b.size)
    (hsum : b.dataindex + b.datalength + len < 65536) :
    bufferAddToEndBuff b data len =
      ({ b with
          dataptr := fun j =>
            if b.dataindex + b.datalength ≤ j ∧ j < b.dataindex + b.datalength + len ∧ j < b.size
            then data (j - (b.dataindex + b.datalength))
            else if j + b.size < b.dataindex + b.datalength + len
            then data (j + b.size - (b.dataindex + b.datalength))
            else b.dataptr j,
          datalength := b.datalength + len }, 255) := by
  have hi := h.1
  have hl := h.2
  have e0 : sub16 b.size b.datalength = b.size - b.datalength := by unfold sub16; omega
  have e1 : add16 b.dataindex b.datalength = b.dataindex + b.datalength := by
    unfold add16; omega
  have e2 : add16 (b.dataindex + b.datalength) len = b.dataindex + b.datalength + len := by
    unfold add16; omega
  have e3 : add16 b.datalength len = b.datalength + len := by unfold add16; omega
  have e4 : sub16 b.size (b.dataindex + b.datalength) = b.size - (b.dataindex + b.datalength) := by
    unfold sub16; omega
  unfold bufferAddToEndBuff
  rw [e0, if_pos hfit, e1, e2, e3, e4]
  dsimp only
  congr 2
  funext j
  by_cases hw : b.dataindex + b.datalength + len > b.size
  · have e5 : sub16 len (b.size - (b.dataindex + b.datalength))
        = len - (b.size - (b.dataindex + b.datalength)) := by
      unfold sub16; omega
    rw [if_pos hw, e5]
    unfold memcpy
    by_cases c2 : j + b.size < b.dataindex + b.datalength + len
    · rw [if_pos (by omega), if_neg (by omega), if_pos c2]
      show data (b.size - (b.dataindex + b.datalength) + (j - 0))
        = data (j + b.size - (b.dataindex + b.datalength))
      congr 1
      omega
    · rw [if_neg (by omega), if_neg c2]
      by_cases c1 : b.dataindex + b.datalength ≤ j ∧ j < b.size
      · rw [if_pos (by omega), if_pos (by omega)]
      · rw [if_neg (by omega), if_neg (by omega)]
  · rw [if_neg hw]
    unfold memcpy
    rw [if_neg (show ¬ (j + b.size < b.dataindex + b.datalength + len) by omega)]
    by_cases c1 : b.dataindex + b.datalength ≤ j ∧ j < b.dataindex + b.datalength + len
    · rw [if_pos c1, if_pos (by omega)]
    · rw [if_neg c1, if_neg (by omega)]

/-- Under the same conditions the contents grow by the first `len` bytes of `data`. -/
theorem contents_bufferAddToEndBuff (b : cBuffer) (data : Nat → Nat) (len : Nat) (h : inv b)
    (hsize : b.size < 65536) (hfit : len ≤ b.size - b.datalength)
    (hspan : b.dataindex + b.datalength ≤ b.size)
    (hsum : b.dataindex + b.datalength + len < 65536) :
    contents (bufferAddToEndBuff b data len).1 = contents b ++ (List.range len).map data := by
  have hi := h.1
  have hl := h.2
  rw [bufferAddToEndBuff_exact b data len h hsize hfit hspan hsum]
  unfold contents
  dsimp only
  rw [List.range_add, List.map_append, List.map_map]
  congr 1
  · apply List.map_congr_left
    intro i hmem
    rw [List.mem_range] at hmem
    rw [Nat.mod_eq_of_lt (by omega), if_neg (by omega), if_neg (by omega)]
  · apply List.map_congr_left
    intro k hmem
    rw [List.mem_range] at hmem
    show (if _ then _ else _) = data k
    rw [mod_of_lt_two_mul (b.dataindex + (b.datalength + k)) b.size (by omega)]
    by_cases c : b.dataindex + (b.datalength + k) < b.size
    · rw [if_pos c, if_pos (by omega)]
      congr 1
      omega
    · rw [if_neg c, if_neg (by omega), if_pos (by omega)]
      congr 1
      omega

/-- The occupied span of `wrappedBuffer` wraps: head 2, length 3, capacity 4. -/
theorem wrappedBuffer_fields :
    wrappedBuffer.size = 4 ∧ wrappedBuffer.dataindex = 2 ∧ wrappedBuffer.datalength = 3 ∧
    contents wrappedBuffer = [3, 4, 5] := by decide

/-- A bulk append of one byte to `wrappedBuffer`, for every source `d`: the
byte `d[0]` is stored at offset 5, past the storage of 4 bytes, while offsets
0 and 1 receive `d[65535]` and `d[65536]`. -/
theorem bufferAddToEndBuff_wrappedBuffer (d : Nat → Nat) :
    (bufferAddToEndBuff wrappedBuffer d 1).2 = 255 ∧
    (bufferAddToEndBuff wrappedBuffer d 1).1.dataptr 5 = d 0 ∧
    contents (bufferAddToEndBuff wrappedBuffer d 1).1 = [3, 4, d 65535, d 65536] := by
  have h1 : (bufferAddToEndBuff wrappedBuffer d 1).1.datalength = 4 := rfl
  have h2 : (bufferAddToEndBuff wrappedBuffer d 1).1.dataindex = 2 := rfl
  have h3 : (bufferAddToEndBuff wrappedBuffer d 1).1.size = 4 := rfl
  have h4 : (bufferAddToEndBuff wrappedBuffer d 1).1.dataptr 2 = 3 := rfl
  have h5 : (bufferAddToEndBuff wrappedBuffer d 1).1.dataptr 3 = 4 := rfl
  have h6 : (bufferAddToEndBuff wrappedBuffer d 1).1.dataptr 0 = d 65535 := rfl
  have h7 : (bufferAddToEndBuff wrappedBuffer d 1).1.dataptr 1 = d 65536 := rfl
  refine ⟨rfl, rfl, ?_⟩
  simp [contents, h1, h2, h3, List.range_succ, h4, h5, h6, h7]

/-- The wraparound scenario of the specification at capacity 8: push 6 bytes,
pop 4, push 6 more; the buffer returns what the unbounded queue returns and
holds the expected remainder in order. -/
theorem fifo_wrap_capacity8 :
    bufferTrace (bufferInit blank (fun _ => 0) 8)
        [.push 1, .push 2, .push 3, .push 4, .push 5, .push 6, .pop, .pop, .pop, .pop,
         .push 7, .push 8, .push 9, .push 10, .push 11, .push 12]
      = fifoTrace []
        [.push 1, .push 2, .push 3, .push 4, .push 5, .push 6, .pop, .pop, .pop, .pop,
         .push 7, .push 8, .push 9, .push 10, .push 11, .push 12] ∧
    contents (run (bufferInit blank (fun _ => 0) 8)
        [.addToEnd 1, .addToEnd 2, .addToEnd 3, .addToEnd 4, .addToEnd 5, .addToEnd 6,
         .getFromFront, .getFromFront, .getFromFront, .getFromFront,
         .addToEnd 7, .addToEnd 8, .addToEnd 9, .addToEnd 10, .addToEnd 11, .addToEnd 12])
      = [5, 6, 7, 8, 9, 10, 11, 12] := by decide

/-! ## The copies of a bulk append -/

/-- The storage after `bufferAddToEndBuff` is the storage after the copies of
`bufferAddToEndBuffCopies`. -/
theorem bufferAddToEndBuff_dataptr_copies (b : cBuffer) (data : Nat → Nat) (len : Nat) :
    (bufferAddToEndBuff b data len).1.dataptr
      = applyCopies data b.dataptr (bufferAddToEndBuffCopies b len) := by
  have h0 : (fun i => data (0 + i)) = data := by
    funext i
    rw [Nat.zero_add]
  unfold bufferAddToEndBuff bufferAddToEndBuffCopies
  by_cases hfit : sub16 b.size b.datalength ≥ len
  · rw [if_pos hfit, if_pos hfit]
    by_cases hw : add16 (add16 b.dataindex b.datalength) len > b.size
    · rw [if_pos hw]
      simp only [applyCopies, if_pos hw, h0]
    · rw [if_neg hw]
      simp only [applyCopies, if_neg hw, h0]
  · rw [if_neg hfit, if_neg hfit]
    rfl

/-- When the free span starts inside the storage (`dataindex + datalength ≤ size`)
and no sum exceeds 16 bits, every copy of an accepted bulk append writes inside
the storage. -/
theorem bufferAddToEndBuffCopies_inside (b : cBuffer) (len : Nat) (h : inv b)
    (hsize : b.size < 65536) (hfit : len ≤ b.size - b.datalength)
    (hspan : b.dataindex + b.datalength ≤ b.size)
    (hsum : b.dataindex + b.datalength + len < 65536) :
    ∀ c ∈ bufferAddToEndBuffCopies b len, c.inside b.size := by
  have hi := h.1
  have hl := h.2
  have e0 : sub16 b.size b.datalength = b.size - b.datalength := by unfold sub16; omega
  have e1 : add16 b.dataindex b.datalength = b.dataindex + b.datalength := by
    unfold add16; omega
  have e2 : add16 (b.dataindex + b.datalength) len = b.dataindex + b.datalength + len := by
    unfold add16; omega
  have e4 : sub16 b.size (b.dataindex + b.datalength) = b.size - (b.dataindex + b.datalength) := by
    unfold sub16; omega
  intro c hc
  unfold bufferAddToEndBuffCopies at hc
  rw [e0, if_pos hfit, e1, e2, e4] at hc
  unfold Copy.inside
  by_cases hw : b.dataindex + b.datalength + len > b.size
  · rw [if_pos hw] at hc
    simp only [List.mem_cons, List.mem_singleton, List.not_mem_nil, or_false] at hc
    rcases hc with rfl | rfl
    · intro i h1 h2
      dsimp only at h1 h2
      omega
    · intro i h1 h2
      unfold sub16 at h2
      dsimp only at h1 h2
      omega
  · rw [if_neg hw] at hc
    simp only [List.mem_singleton] at hc
    subst hc
    intro i h1 h2
    dsimp only at h1 h2
    omega

/-- A bulk append of more bytes than the free space is defined: it makes no
copy, returns 0 and gives back the buffer as it was. -/
theorem bufferAddToEndBuffChecked_rejected (b : cBuffer) (data : Nat → Nat) (len : Nat)
    (hsize : b.size < 65536) (hlen : b.datalength ≤ b.size)
    (h : b.size - b.datalength < len) :
    bufferAddToEndBuffCopies b len = [] ∧
    bufferAddToEndBuffChecked b data len = some (b, 0) := by
  have hs : sub16 b.size b.datalength = b.size - b.datalength := by
    unfold sub16; omega
  have hc : bufferAddToEndBuffCopies b len = [] := by
    unfold bufferAddToEndBuffCopies
    rw [hs, if_neg (by omega)]
  refine ⟨hc, ?_⟩
  unfold bufferAddToEndBuffChecked
  rw [hc, if_pos (by simp)]
  unfold bufferAddToEndBuff
  rw [hs, if_neg (by omega)]

/-- When the free span starts inside the storage (`dataindex + datalength ≤ size`)
and no sum exceeds 16 bits, a bulk append that fits is defined and reports
success. -/
theorem bufferAddToEndBuffChecked_accepted (b : cBuffer) (data : Nat → Nat) (len : Nat)
    (h : inv b) (hsize : b.size < 65536) (hfit : len ≤ b.size - b.datalength)
    (hspan : b.dataindex + b.datalength ≤ b.size)
    (hsum : b.dataindex + b.datalength + len < 65536) :
    bufferAddToEndBuffChecked b data len = some (bufferAddToEndBuff b data len) ∧
    (bufferAddToEndBuff b data len).2 = 255 := by
  have hi := h.1
  have hl := h.2
  have e0 : sub16 b.size b.datalength = b.size - b.datalength := by unfold sub16; omega
  have e1 : add16 b.dataindex b.datalength = b.dataindex + b.datalength := by
    unfold add16; omega
  have e2 : add16 (b.dataindex + b.datalength) len = b.dataindex + b.datalength + len := by
    unfold add16; omega
  have e4 : sub16 b.size (b.dataindex + b.datalength) = b.size - (b.dataindex + b.datalength) := by
    unfold sub16; omega
  have hall : ∀ c ∈ bufferAddToEndBuffCopies b len, c.inBounds b.size len := by
    intro c hc
    unfold bufferAddToEndBuffCopies at hc
    rw [e0, if_pos hfit, e1, e2, e4] at hc
    unfold Copy.inBounds
    by_cases hw : b.dataindex + b.datalength + len > b.size
    · rw [if_pos hw] at hc
      simp only [List.mem_cons, List.mem_singleton, List.not_mem_nil, or_false] at hc
      rcases hc with rfl | rfl
      · dsimp only
        omega
      · unfold sub16
        dsimp only
        omega
    · rw [if_neg hw] at hc
      simp only [List.mem_singleton] at hc
      subst hc
      dsimp only
      omega
  refine ⟨?_, ?_⟩
  · unfold bufferAddToEndBuffChecked
    rw [if_pos hall]
  · rw [bufferAddToEndBuff_exact b data len h hsize hfit hspan hsum]

/-! ## Bulk append and repeated single append -/

/-- Appending one more byte after a sequence of single appends. -/
theorem pushAll_append (l : List Nat) (x : Nat) (b : cBuffer) :
    pushAll b (l ++ [x]) = (bufferAddToEnd (pushAll b l) x).1 := by
  induction l generalizing b with
  | nil => rfl
  | cons y ys ih => exact ih (bufferAddToEnd b y).1

/-- When the free span starts inside the storage (`dataindex + datalength ≤ size`)
and no sum exceeds 16 bits, an accepted bulk append gives the buffer that the
single appends of the same bytes give. -/
theorem bufferAddToEndBuff_eq_pushAll (len : Nat) (b : cBuffer) (data : Nat → Nat)
    (h : inv b) (hsize : b.size < 65536) (hfit : len ≤ b.size - b.datalength)
    (hspan : b.dataindex + b.datalength ≤ b.size)
    (hsum : b.dataindex + b.datalength + len < 65536) :
    (bufferAddToEndBuff b data len).1 = pushAll b ((List.range len).map data) := by
  have hi := h.1
  have hl := h.2
  induction len with
  | zero =>
    rw [bufferAddToEndBuff_exact b data 0 h hsize hfit hspan hsum]
    show _ = b
    cases b
    simp only [cBuffer.mk.injEq, Nat.add_zero, and_true, true_and]
    funext j
    dsimp only at *
    rw [if_neg (by omega), if_neg (by omega)]
  | succ n ih =>
    have ih1 := ih (by omega) (by omega)
    rw [List.range_succ, List.map_append, List.map_singleton, pushAll_append, ← ih1,
      bufferAddToEndBuff_exact b data n h hsize (by omega) hspan (by omega),
      bufferAddToEndBuff_exact b data (n + 1) h hsize hfit hspan hsum]
    dsimp only
    have hpush := (contents_bufferAddToEnd
      { b with
          dataptr := fun j =>
            if b.dataindex + b.datalength ≤ j ∧ j < b.dataindex + b.datalength + n ∧ j < b.size
            then data (j - (b.dataindex + b.datalength))
            else if j + b.size < b.dataindex + b.datalength + n
            then data (j + b.size - (b.dataindex + b.datalength))
            else b.dataptr j,
          datalength := b.datalength + n }
      (data n) ⟨hi, (by dsimp only; omega)⟩ hsize
      (by dsimp only; omega) (by dsimp only; omega)).1
    rw [hpush]
    dsimp only
    have hm := mod_of_lt_two_mul (b.dataindex + (b.datalength + n)) b.size (by omega)
    cases b
    dsimp only at *
    simp only [cBuffer.mk.injEq, true_and]
    refine ⟨?_, by omega, trivial⟩
    funext j
    rw [Function.update_apply, hm]
    split_ifs <;> first | rfl | (congr 1; omega)

/-! ## Pops return the contents in order -/

/-- With `size` in range, `n` pops of a buffer holding at least `n` bytes
return the first `n` elements of its contents. -/
theorem popValues_eq_take (n : Nat) (b : cBuffer) (h : inv b) (hsize : b.size < 65536)
    (hn : n ≤ b.datalength) : popValues n b = (contents b).take n := by
  induction n generalizing b with
  | zero => rfl
  | succ n ih =>
    obtain ⟨_, e, hc⟩ := contents_bufferGetFromFront b h hsize (by omega)
    have hinv := inv_bufferGetFromFront b h
    have ih1 := ih (bufferGetFromFront b).1 hinv (by rw [e]; exact hsize)
      (by rw [e]; dsimp only; omega)
    show (bufferGetFromFront b).2 :: popValues n (bufferGetFromFront b).1 = _
    rw [ih1, hc, List.take_succ_cons]

/-- When `dataindex + n` does not exceed 16 bits, a bulk append of `n ≤ size`
bytes to an empty buffer succeeds, the next `n` pops return those bytes in
order, and the buffer is empty again. -/
theorem bulk_round_trip (b : cBuffer) (data : Nat → Nat) (n : Nat) (hsize : b.size < 65536)
    (hhead : b.dataindex < b.size) (hempty : b.datalength = 0) (hn : n ≤ b.size)
    (hsum : b.dataindex + n < 65536) :
    (bufferAddToEndBuff b data n).2 = 255 ∧
    popValues n (bufferAddToEndBuff b data n).1 = (List.range n).map data ∧
    (popN n (bufferAddToEndBuff b data n).1).datalength = 0 := by
  have h : inv b := ⟨hhead, by omega⟩
  have hfit : n ≤ b.size - b.datalength := by omega
  have hspan : b.dataindex + b.datalength ≤ b.size := by omega
  have hsum1 : b.dataindex + b.datalength + n < 65536 := by omega
  have e := bufferAddToEndBuff_exact b data n h hsize hfit hspan hsum1
  have hc := contents_bufferAddToEndBuff b data n h hsize hfit hspan hsum1
  have hinv := inv_bufferAddToEndBuff b data n h
  have hlen : (bufferAddToEndBuff b data n).1.datalength = n := by
    rw [e]
    dsimp only
    omega
  have hsz : (bufferAddToEndBuff b data n).1.size = b.size := by rw [e]
  have hc0 : contents b = [] := by simp [contents, hempty]
  refine ⟨by rw [e], ?_, ?_⟩
  · rw [popValues_eq_take n _ hinv (by rw [hsz]; exact hsize) (by omega), hc, hc0,
      List.nil_append]
    apply List.take_of_length_le
    simp
  · rw [popN_exact n _ hinv (by rw [hsz]; exact hsize) (by omega)]
    dsimp only
    omega

/-! ## Frame of a single append -/

/-- When `dataindex + datalength` does not exceed 16 bits, a successful single
append stores the byte at offset `(dataindex + datalength) % size`, which is
inside the storage and outside the occupied span, and changes no other byte. -/
theorem bufferAddToEnd_frame (b : cBuffer) (x : Nat) (h : inv b) (hsize : b.size < 65536)
    (hroom : b.datalength < b.size) (hsum : b.dataindex + b.datalength < 65536) :
    (bufferAddToEnd b x).1.dataptr ((b.dataindex + b.datalength) % b.size) = x ∧
    (∀ j, j ≠ (b.dataindex + b.datalength) % b.size →
      (bufferAddToEnd b x).1.dataptr j = b.dataptr j) ∧
    (b.dataindex + b.datalength) % b.size < b.size ∧
    (∀ i, i < b.datalength →
      (b.dataindex + i) % b.size ≠ (b.dataindex + b.datalength) % b.size) ∧
    (bufferAddToEnd b x).1.dataindex = b.dataindex ∧
    (bufferAddToEnd b x).1.size = b.size ∧
    (bufferAddToEnd b x).1.datalength = b.datalength + 1 := by
  have e := (contents_bufferAddToEnd b x h hsize hroom hsum).1
  rw [e]
  refine ⟨Function.update_same _ _ _, fun j hj => Function.update_noteq hj _ _,
    Nat.mod_lt _ (by omega), fun i hi => wrapped_index_ne _ _ _ _ h.1 hroom hi, rfl, rfl, rfl⟩

/-! ## The claims -/

/-- C1 fails on the code: `bufferInit` with capacity 4, three appends, two pops
and two appends are all defined and give `wrappedBuffer` (head 2, length 3),
which has the invariant.  The bulk append of one byte that follows is accepted
(`1 ≤ size - datalength`) and copies 65535 bytes to offset 5, past the 4 bytes
of storage: the call is undefined, and so is the run, so no buffer with the
invariant is there after it. -/
theorem C1_invariant_lost_by_wrapped_bulk_append :
    (runChecked (bufferInit blank (fun _ => 0) 4)
      [.addToEnd 1, .addToEnd 2, .addToEnd 3, .getFromFront, .getFromFront,
       .addToEnd 4, .addToEnd 5]).map (fun b => (b.size, b.dataindex, b.datalength))
      = some (4, 2, 3) ∧
    inv wrappedBuffer ∧
    1 ≤ wrappedBuffer.size - wrappedBuffer.datalength ∧
    bufferAddToEndBuffCopies wrappedBuffer 1
      = [{ dst := 5, src := 0, n := 65535 }, { dst := 0, src := 65535, n := 2 }] ∧
    ¬ Copy.inBounds { dst := 5, src := 0, n := 65535 } wrappedBuffer.size 1 ∧
    (stepChecked wrappedBuffer (.addToEndBuff (ptrOf [9]) 1)).isNone = true ∧
    (runChecked (bufferInit blank (fun _ => 0) 4)
      [.addToEnd 1, .addToEnd 2, .addToEnd 3, .getFromFront, .getFromFront,
       .addToEnd 4, .addToEnd 5, .addToEndBuff (ptrOf [9]) 1]).isNone = true := by
  decide

/-- C2 fails on the code: on a buffer of capacity 65535 with head 65534 holding
the two bytes `254, 0`, a successful `bufferAddToEnd` of 77 stores it at offset
0, over the second byte, because `dataindex + datalength` is reduced modulo
65536 before `% size`.  The contents become `254, 77, 1` and not `254, 0, 77`,
and the three following pops return `254, 77, 1` where the unbounded queue
returns `254, 0, 77`.  The same happens on a run that starts with `bufferInit`. -/
theorem C2_fifo_overflow :
    inv (highBuffer 2) ∧ (highBuffer 2).inRange ∧
    (bufferAddToEnd (highBuffer 2) 77).2 = 255 ∧
    contents (highBuffer 2) = [254, 0] ∧
    contents (bufferAddToEnd (highBuffer 2) 77).1 = [254, 77, 1] ∧
    bufferTrace (highBuffer 2) [.push 77, .pop, .pop, .pop] = [255, 254, 77, 1] ∧
    fifoTrace (contents (highBuffer 2)) [.push 77, .pop, .pop, .pop] = [255, 254, 0, 77] ∧
    contents (run (bufferInit blank (fun _ => 0) 65535)
        [.addToEndBuff (fun i => i % 256) 65534, .dumpFromFront 65533,
         .addToEnd 1, .addToEnd 2]) = [253, 1, 2] ∧
    contents (run (bufferInit blank (fun _ => 0) 65535)
        [.addToEndBuff (fun i => i % 256) 65534, .dumpFromFront 65533,
         .addToEnd 1, .addToEnd 2, .addToEnd 3]) = [253, 1, 3, 1] := by
  decide

/-- C3 fails on the code: on `wrappedBuffer` (capacity 4, head 2, contents
`3, 4, 5`, one free byte at offset 1) a bulk append of the single byte 9
reports success, but `first = size - (dataindex + datalength)` underflows to
65535: the byte 9 is stored at offset 5, past the storage, and the second copy
overwrites offsets 0 and 1 with what lies behind the source.  The occupied
byte 5 is lost and the contents are `3, 4, 0, 0` and not `3, 4, 5, 9`. -/
theorem C3_bulk_wrapped_span :
    inv wrappedBuffer ∧ wrappedBuffer.inRange ∧
    1 ≤ wrappedBuffer.size - wrappedBuffer.datalength ∧
    wrappedBuffer.dataindex + wrappedBuffer.datalength > wrappedBuffer.size ∧
    contents wrappedBuffer = [3, 4, 5] ∧
    (bufferAddToEndBuff wrappedBuffer (ptrOf [9]) 1).2 = 255 ∧
    (bufferAddToEndBuff wrappedBuffer (ptrOf [9]) 1).1.datalength = 4 ∧
    (bufferAddToEndBuff wrappedBuffer (ptrOf [9]) 1).1.dataptr 5 = 9 ∧
    (bufferAddToEndBuff wrappedBuffer (ptrOf [9]) 1).1.dataptr 0 = 0 ∧
    (bufferAddToEndBuff wrappedBuffer (ptrOf [9]) 1).1.dataptr 1 = 0 ∧
    contents (bufferAddToEndBuff wrappedBuffer (ptrOf [9]) 1).1 = [3, 4, 0, 0] ∧
    contents wrappedBuffer ++ [9] = [3, 4, 5, 9] := by
  decide

/-- C4 fails on the code: on `wrappedBuffer` (capacity 4, head 2, length 3) a
count of 2 exceeds the free space and the call is defined, makes no copy and
returns 0; a count of 1 is within the free space, `1 ≤ size - datalength`, and
there the call copies 65535 bytes to offset 5, past the storage, before it
reaches `return status`: it is undefined and returns no status. -/
theorem C4_bulk_acceptance_undefined :
    wrappedBuffer.datalength ≤ wrappedBuffer.size ∧
    wrappedBuffer.size - wrappedBuffer.datalength < 2 ∧
    bufferAddToEndBuffCopies wrappedBuffer 2 = [] ∧
    (bufferAddToEndBuffChecked wrappedBuffer (ptrOf [7, 8]) 2).map Prod.snd = some 0 ∧
    1 ≤ wrappedBuffer.size - wrappedBuffer.datalength ∧
    bufferAddToEndBuffCopies wrappedBuffer 1
      = [{ dst := 5, src := 0, n := 65535 }, { dst := 0, src := 65535, n := 2 }] ∧
    ¬ Copy.inBounds { dst := 5, src := 0, n := 65535 } wrappedBuffer.size 1 ∧
    (bufferAddToEndBuffChecked wrappedBuffer (ptrOf [9]) 1).isNone = true := by
  decide

/-- C5: `bufferAddToEnd` returns nonzero if and only if `datalength < size`
before the call; when `datalength = size` it returns 0 and gives back the
buffer as it was.  The bound `datalength ≤ size` of the claim is not needed. -/
theorem C5_fullness_rejection (b : cBuffer) (x : Nat) :
    ((bufferAddToEnd b x).2 ≠ 0 ↔ b.datalength < b.size) ∧
    (b.datalength = b.size → bufferAddToEnd b x = (b, 0)) := by
  unfold bufferAddToEnd
  constructor
  · by_cases h : b.datalength < b.size
    · simp [h]
    · simp [h]
  · intro h
    rw [if_neg (by omega)]

/-- C6: on an empty buffer `bufferGetFromFront` returns 0 and gives back the
buffer as it was. -/
theorem C6_underflow (b : cBuffer) (h : b.datalength = 0) :
    bufferGetFromFront b = (b, 0) := by
  unfold bufferGetFromFront
  rw [if_neg (by simp [h])]

/-- C6 at an empty buffer whose head is at offset 3. -/
theorem C6_underflow_witness :
    (0 : Nat) = 0 ∧
    bufferGetFromFront ⟨fun i => i + 1, 4, 0, 3⟩ = (⟨fun i => i + 1, 4, 0, 3⟩, 0) :=
  ⟨rfl, C6_underflow ⟨fun i => i + 1, 4, 0, 3⟩ rfl⟩

/-- C7 fails on the code: on a buffer of capacity 65535 with head 65534 holding
10 bytes, `bufferDumpFromFront` with count 5 leaves the head at 3, because
`dataindex += numbytes` is reduced modulo 65536 before the comparison with
`size`; five calls of `bufferGetFromFront` leave it at 4 =
`(65534 + 5) % 65535`.  The two states differ, and so do their contents. -/
theorem C7_discard_overflow :
    inv (highBuffer 10) ∧ (highBuffer 10).inRange ∧
    (bufferDumpFromFront (highBuffer 10) 5).dataindex = 3 ∧
    (popN 5 (highBuffer 10)).dataindex = 4 ∧
    contents (bufferDumpFromFront (highBuffer 10) 5) = [3, 4, 5, 6, 7] ∧
    contents (popN 5 (highBuffer 10)) = [4, 5, 6, 7, 8] ∧
    bufferDumpFromFront (highBuffer 10) 5 ≠ popN 5 (highBuffer 10) := by
  refine ⟨by decide, by decide, by decide, by decide, by decide, by decide, ?_⟩
  intro h
  have h1 := congrArg cBuffer.dataindex h
  revert h1
  decide

/-- C8: a discard of `numbytes ≥ datalength` bytes gives the buffer that
`bufferFlush` gives: `datalength` is 0 and `dataindex`, `size` and the storage
are as before. -/
theorem C8_discard_all_is_flush (b : cBuffer) (numbytes : Nat) (h : b.datalength ≤ numbytes) :
    bufferDumpFromFront b numbytes = bufferFlush b ∧
    (bufferDumpFromFront b numbytes).datalength = 0 ∧
    (bufferDumpFromFront b numbytes).dataindex = b.dataindex ∧
    (bufferDumpFromFront b numbytes).size = b.size ∧
    (bufferDumpFromFront b numbytes).dataptr = b.dataptr := by
  have e : bufferDumpFromFront b numbytes = { b with datalength := 0 } := by
    unfold bufferDumpFromFront
    rw [if_neg (by omega)]
  rw [e]
  exact ⟨rfl, rfl, rfl, rfl, rfl⟩

/-- C8 at a buffer holding 3 bytes, discarding exactly 3. -/
theorem C8_discard_all_is_flush_witness :
    (3 : Nat) ≤ 3 ∧
    bufferDumpFromFront ⟨fun i => i, 4, 3, 2⟩ 3 = bufferFlush ⟨fun i => i, 4, 3, 2⟩ :=
  ⟨by decide, (C8_discard_all_is_flush ⟨fun i => i, 4, 3, 2⟩ 3 (by decide)).1⟩

/-- C9: with `size` in range, `bufferIsNotFull` after `bufferFlush` returns
`size`; `bufferFlush` sets `datalength` to 0 and leaves `dataindex`, `size` and
the storage as they were; flushing twice gives what flushing once gives. -/
theorem C9_flush (b : cBuffer) (hsize : b.size < 65536) :
    (bufferIsNotFull (bufferFlush b)).2 = b.size ∧
    (bufferFlush b).datalength = 0 ∧
    (bufferFlush b).dataindex = b.dataindex ∧
    (bufferFlush b).size = b.size ∧
    (bufferFlush b).dataptr = b.dataptr ∧
    bufferFlush (bufferFlush b) = bufferFlush b := by
  refine ⟨?_, rfl, rfl, rfl, rfl, rfl⟩
  unfold bufferIsNotFull bufferFlush sub16
  dsimp only
  omega

/-- C9 at a full buffer of capacity 4. -/
theorem C9_flush_witness :
    (4 : Nat) < 65536 ∧ (bufferIsNotFull (bufferFlush ⟨fun i => i, 4, 4, 1⟩)).2 = 4 :=
  ⟨by decide, (C9_flush ⟨fun i => i, 4, 4, 1⟩ (by decide)).1⟩

/-- C10 fails on the code: on a buffer of capacity 65535 with head 65534 holding
10 bytes, `bufferGetAtIndex` at offset 5 reads offset 3 of the storage, because
`dataindex + index` is reduced modulo 65536 before `% size`; the byte at
logical position 5 is at offset `(65534 + 5) % 65535 = 4`.  The buffer itself
is returned as it was. -/
theorem C10_peek_overflow :
    inv (highBuffer 10) ∧ (highBuffer 10).inRange ∧ 5 < (highBuffer 10).datalength ∧
    (bufferGetAtIndex (highBuffer 10) 5).2 = (highBuffer 10).dataptr 3 ∧
    (bufferGetAtIndex (highBuffer 10) 5).2 = 3 ∧
    (65534 + 5) % 65535 = 4 ∧
    (highBuffer 10).dataptr ((65534 + 5) % 65535) = 4 ∧
    (contents (highBuffer 10))[5]? = some 4 := by
  decide

/-- C11: with `size` in range and `datalength ≤ size`, `bufferIsNotFull`
returns `size - datalength`, gives back the buffer as it was, and returns 0 if
and only if `datalength = size`. -/
theorem C11_free_space (b : cBuffer) (hsize : b.size < 65536) (hlen : b.datalength ≤ b.size) :
    (bufferIsNotFull b).2 = b.size - b.datalength ∧
    (bufferIsNotFull b).1 = b ∧
    ((bufferIsNotFull b).2 = 0 ↔ b.datalength = b.size) := by
  have e : (bufferIsNotFull b).2 = b.size - b.datalength := by
    unfold bufferIsNotFull sub16
    dsimp only
    omega
  refine ⟨e, rfl, ?_⟩
  rw [e]
  omega

/-- C11 at a buffer of capacity 4 holding 3 bytes. -/
theorem C11_free_space_witness :
    (4 : Nat) < 65536 ∧ (3 : Nat) ≤ 4 ∧
    (bufferIsNotFull ⟨fun i => i, 4, 3, 2⟩).2 = 4 - 3 :=
  ⟨by decide, by decide, (C11_free_space ⟨fun i => i, 4, 3, 2⟩ (by decide) (by decide)).1⟩

/-- C13: for every storage and every capacity in the range of its
`unsigned short` parameter, `bufferInit` yields a buffer bound to that storage
and capacity with `dataindex = 0` and `datalength = 0`; on it `bufferIsNotFull`
returns the capacity and `bufferGetFromFront` returns 0 and gives back the
buffer as it was; the storage behind the buffer is the storage passed in, byte
for byte. -/
theorem C13_initialization (buffer : cBuffer) (start : Nat → Nat) (size : Nat)
    (hsize : size < 65536) :
    (bufferInit buffer start size).dataptr = start ∧
    (bufferInit buffer start size).size = size ∧
    (bufferInit buffer start size).dataindex = 0 ∧
    (bufferInit buffer start size).datalength = 0 ∧
    (bufferIsNotFull (bufferInit buffer start size)).2 = size ∧
    bufferGetFromFront (bufferInit buffer start size) = (bufferInit buffer start size, 0) ∧
    ∀ i, (bufferInit buffer start size).dataptr i = start i := by
  refine ⟨rfl, rfl, rfl, rfl, ?_, rfl, fun _ => rfl⟩
  unfold bufferIsNotFull bufferInit sub16
  dsimp only
  omega

/-- C13 at a storage of 4 bytes and a structure with stale fields. -/
theorem C13_initialization_witness :
    (4 : Nat) < 65536 ∧
    (bufferIsNotFull (bufferInit ⟨fun _ => 9, 7, 5, 3⟩ (fun i => i) 4)).2 = 4 :=
  ⟨by decide, (C13_initialization ⟨fun _ => 9, 7, 5, 3⟩ (fun i => i) 4 (by decide)).2.2.2.2.1⟩

/-- C14: for every buffer with `size > 0`, every head and every offset, the
byte that `bufferGetAtIndex` returns is the one at the offset
`bufferGetAtIndexOffset` of the storage, and that offset is below `size`. -/
theorem C14_peek_inside_storage (b : cBuffer) (index : Nat) (hsize : 0 < b.size) :
    (bufferGetAtIndex b index).2 = b.dataptr (bufferGetAtIndexOffset b index) ∧
    bufferGetAtIndexOffset b index < b.size ∧
    (bufferGetAtIndex b index).1 = b :=
  ⟨rfl, Nat.mod_lt _ hsize, rfl⟩

/-- C14 at an empty buffer of capacity 4 whose head is out of range, peeked at
offset 1000. -/
theorem C14_peek_inside_storage_witness :
    (0 : Nat) < 4 ∧ bufferGetAtIndexOffset ⟨fun i => i, 4, 0, 9⟩ 1000 < 4 :=
  ⟨by decide, (C14_peek_inside_storage ⟨fun i => i, 4, 0, 9⟩ 1000 (by decide)).2.1⟩

/-- C15 fails on the code: on a buffer of capacity 65535 with head 65534 holding
10 bytes, `bufferDumpFromFront` with count 5 stores `65534 + 5` in the 16-bit
field `dataindex`, which wraps to 3; 3 is below `size`, so nothing is
subtracted and the head is 3, where `(65534 + 5) % 65535 = 4`.  The length is
`10 - 5` as stated. -/
theorem C15_discard_head_overflow :
    (highBuffer 10).dataindex < (highBuffer 10).size ∧
    (highBuffer 10).datalength ≤ (highBuffer 10).size ∧
    1 ≤ (highBuffer 10).size ∧ (highBuffer 10).size ≤ 65535 ∧
    5 < (highBuffer 10).datalength ∧
    add16 (highBuffer 10).dataindex 5 = 3 ∧
    (bufferDumpFromFront (highBuffer 10) 5).dataindex = 3 ∧
    ((highBuffer 10).dataindex + 5) % (highBuffer 10).size = 4 ∧
    (bufferDumpFromFront (highBuffer 10) 5).datalength = 10 - 5 := by
  decide

/-- C16: with `size` in range, `dataindex < size` and `0 < datalength ≤ size`,
`bufferGetFromFront` returns `dataptr[dataindex]`, sets `dataindex` to
`(dataindex + 1) % size` and `datalength` to `datalength - 1`, and leaves
`size` and every byte of storage as they were. -/
theorem C16_pop_postcondition (b : cBuffer) (hsize : b.size < 65536)
    (hhead : b.dataindex < b.size) (hpos : 0 < b.datalength) (hlen : b.datalength ≤ b.size) :
    (bufferGetFromFront b).2 = b.dataptr b.dataindex ∧
    (bufferGetFromFront b).1.dataindex = (b.dataindex + 1) % b.size ∧
    (bufferGetFromFront b).1.datalength = b.datalength - 1 ∧
    (bufferGetFromFront b).1.size = b.size ∧
    (bufferGetFromFront b).1.dataptr = b.dataptr := by
  obtain ⟨hv, e, _⟩ := contents_bufferGetFromFront b ⟨hhead, hlen⟩ hsize (by omega)
  rw [e]
  exact ⟨hv, rfl, rfl, rfl, rfl⟩

/-- C16 at a buffer of capacity 4 whose head is at the last offset. -/
theorem C16_pop_postcondition_witness :
    (4 : Nat) < 65536 ∧ (3 : Nat) < 4 ∧ (0 : Nat) < 2 ∧ (2 : Nat) ≤ 4 ∧
    (bufferGetFromFront ⟨fun i => i + 10, 4, 2, 3⟩).2 = 13 ∧
    (bufferGetFromFront ⟨fun i => i + 10, 4, 2, 3⟩).1.dataindex = (3 + 1) % 4 :=
  ⟨by decide, by decide, by decide, by decide,
   (C16_pop_postcondition ⟨fun i => i + 10, 4, 2, 3⟩ (by decide) (by decide) (by decide)
      (by decide)).1,
   (C16_pop_postcondition ⟨fun i => i + 10, 4, 2, 3⟩ (by decide) (by decide) (by decide)
      (by decide)).2.1⟩

/-- C17 fails on the code: on `wrappedBuffer` (capacity 4, head 2, length 3, so
`dataindex + datalength = 5 > size`) a bulk append of one byte is accepted and
`first = size - (dataindex + datalength)` underflows to 65535.  The copies are
65535 bytes to offset 5 and 2 bytes to offset 0: the first lies wholly outside
the storage, and the byte 9 is stored at offset 5.  With a count of 0 the
copies are 65535 bytes to offset 5 and 1 byte to offset 0. -/
theorem C17_bulk_copy_outside_storage :
    inv wrappedBuffer ∧ wrappedBuffer.inRange ∧ wrappedBuffer.size = 4 ∧
    1 ≤ wrappedBuffer.size - wrappedBuffer.datalength ∧
    wrappedBuffer.size < wrappedBuffer.dataindex + wrappedBuffer.datalength ∧
    sub16 wrappedBuffer.size (add16 wrappedBuffer.dataindex wrappedBuffer.datalength) = 65535 ∧
    bufferAddToEndBuffCopies wrappedBuffer 1
      = [{ dst := 5, src := 0, n := 65535 }, { dst := 0, src := 65535, n := 2 }] ∧
    ¬ Copy.inside { dst := 5, src := 0, n := 65535 } wrappedBuffer.size ∧
    (bufferAddToEndBuff wrappedBuffer (ptrOf [9]) 1).1.dataptr 5 = 9 ∧
    wrappedBuffer.dataptr 5 = 0 ∧
    bufferAddToEndBuffCopies wrappedBuffer 0
      = [{ dst := 5, src := 0, n := 65535 }, { dst := 0, src := 65535, n := 1 }] := by
  refine ⟨by decide, by decide, by decide, by decide, by decide, by decide, by decide, ?_,
    by decide, by decide, by decide⟩
  intro h
  exact absurd (h 5 (by decide) (by decide)) (by decide)

/-- C18 fails on the code: on `wrappedBuffer` (capacity 4, contents `3, 4, 5`,
one free byte at offset 1) the single append of 9 stores it at offset 1 and
leaves the rest alone, while the bulk append of the one byte 9 stores it at
offset 5, past the storage, and overwrites offsets 0 and 1 with what lies
behind the source.  The two buffers differ. -/
theorem C18_bulk_differs_from_repeated_append :
    inv wrappedBuffer ∧ 1 ≤ wrappedBuffer.size - wrappedBuffer.datalength ∧
    (pushAll wrappedBuffer [9]).dataptr 1 = 9 ∧
    (pushAll wrappedBuffer [9]).dataptr 0 = 5 ∧
    (pushAll wrappedBuffer [9]).dataptr 5 = 0 ∧
    contents (pushAll wrappedBuffer [9]) = [3, 4, 5, 9] ∧
    (bufferAddToEndBuff wrappedBuffer (ptrOf [9]) 1).1.dataptr 1 = 0 ∧
    (bufferAddToEndBuff wrappedBuffer (ptrOf [9]) 1).1.dataptr 0 = 0 ∧
    (bufferAddToEndBuff wrappedBuffer (ptrOf [9]) 1).1.dataptr 5 = 9 ∧
    contents (bufferAddToEndBuff wrappedBuffer (ptrOf [9]) 1).1 = [3, 4, 0, 0] ∧
    (bufferAddToEndBuff wrappedBuffer (ptrOf [9]) 1).1 ≠ pushAll wrappedBuffer [9] := by
  refine ⟨by decide, by decide, by decide, by decide, by decide, by decide, by decide,
    by decide, by decide, by decide, ?_⟩
  intro h
  have h5 := congrArg (fun s => s.dataptr 5) h
  revert h5
  decide

/-- C19 fails on the code: on an empty buffer of capacity 65535 with head 65534,
the bulk append of the two bytes `7, 8` succeeds, but `dataindex + datalength +
len` wraps to 0, so the copy is not split: both bytes go to offset 65534 on,
the second one past the storage.  The next two pops return `7, 0` and not
`7, 8`.  The same buffer is reached from `bufferInit` by a bulk append of
65535 bytes, a discard of 65534 and a flush; there the pops return `7, 1`. -/
theorem C19_bulk_round_trip_overflow :
    (highBuffer 0).datalength = 0 ∧ (highBuffer 0).dataindex < (highBuffer 0).size ∧
    0 < (highBuffer 0).size ∧ 2 ≤ (highBuffer 0).size ∧
    add16 (add16 (highBuffer 0).dataindex (highBuffer 0).datalength) 2 = 0 ∧
    (bufferAddToEndBuff (highBuffer 0) (ptrOf [7, 8]) 2).2 = 255 ∧
    bufferAddToEndBuffCopies (highBuffer 0) 2 = [{ dst := 65534, src := 0, n := 2 }] ∧
    popValues 2 (bufferAddToEndBuff (highBuffer 0) (ptrOf [7, 8]) 2).1 = [7, 0] ∧
    (run (bufferInit blank (fun _ => 0) 65535)
      [.addToEndBuff (fun _ => 1) 65535, .dumpFromFront 65534, .flush]).dataindex = 65534 ∧
    (run (bufferInit blank (fun _ => 0) 65535)
      [.addToEndBuff (fun _ => 1) 65535, .dumpFromFront 65534, .flush]).datalength = 0 ∧
    popValues 2 (run (bufferInit blank (fun _ => 0) 65535)
      [.addToEndBuff (fun _ => 1) 65535, .dumpFromFront 65534, .flush,
       .addToEndBuff (ptrOf [7, 8]) 2]) = [7, 1] := by
  decide

/-- C20 fails on the code: on a buffer of capacity 65535 with head 65534 holding
the two bytes at offsets 65534 and 0, `bufferAddToEnd` of 77 leaves the cell at
`(65534 + 2) % 65535 = 1` as it was and changes the cell at offset 0, because
`dataindex + datalength` wraps to 0 before `% size`.  Offset 0 is inside the
occupied span: it holds the second byte of the contents.  Head and capacity
are unchanged and the length grows by 1, as stated. -/
theorem C20_append_frame_overflow :
    inv (highBuffer 2) ∧ (highBuffer 2).datalength < (highBuffer 2).size ∧
    ((highBuffer 2).dataindex + (highBuffer 2).datalength) % (highBuffer 2).size = 1 ∧
    (bufferAddToEnd (highBuffer 2) 77).1.dataptr 1 = (highBuffer 2).dataptr 1 ∧
    (highBuffer 2).dataptr 0 = 0 ∧
    (bufferAddToEnd (highBuffer 2) 77).1.dataptr 0 = 77 ∧
    ((highBuffer 2).dataindex + 1) % (highBuffer 2).size = 0 ∧
    (bufferAddToEnd (highBuffer 2) 77).1.dataindex = (highBuffer 2).dataindex ∧
    (bufferAddToEnd (highBuffer 2) 77).1.size = (highBuffer 2).size ∧
    (bufferAddToEnd (highBuffer 2) 77).1.datalength = (highBuffer 2).datalength + 1 := by
  decide

end Buffer
